import Mathlib

/-!
Verification of the BSB interlinear application's word-alignment engine,
text classifier, concordance search and book-code resolution, as a shallow
embedding of the TypeScript sources (`src/App.tsx`, `src/helpers/bsbDataApi.ts`
and the legacy data-access module).

Strings are modelled through their character lists (`String.data`), so that
every definition evaluates by kernel reduction.  JavaScript's `string | null`
values are modelled as `Option String`, with JS truthiness (`null` and `""`
are falsy) made explicit.  The case conversions in the sources are applied
only to ASCII data (Strong's numbers, book codes), so `toUpperCase` is
modelled on ASCII letters.
-/

namespace BSB

/-- JS truthiness of a `string | null` value: `null` and the empty string are
falsy, every other string is truthy. -/
def jsTruthy : Option String → Bool
  | none => false
  | some s => s ≠ ""

/-- Uppercase an ASCII letter, leaving every other character unchanged
(model of `String.prototype.toUpperCase` on the ASCII data this program
feeds it: Strong's numbers and book codes). -/
def upperChar (c : Char) : Char :=
  if c = 'a' then 'A' else if c = 'b' then 'B' else if c = 'c' then 'C'
  else if c = 'd' then 'D' else if c = 'e' then 'E' else if c = 'f' then 'F'
  else if c = 'g' then 'G' else if c = 'h' then 'H' else if c = 'i' then 'I'
  else if c = 'j' then 'J' else if c = 'k' then 'K' else if c = 'l' then 'L'
  else if c = 'm' then 'M' else if c = 'n' then 'N' else if c = 'o' then 'O'
  else if c = 'p' then 'P' else if c = 'q' then 'Q' else if c = 'r' then 'R'
  else if c = 's' then 'S' else if c = 't' then 'T' else if c = 'u' then 'U'
  else if c = 'v' then 'V' else if c = 'w' then 'W' else if c = 'x' then 'X'
  else if c = 'y' then 'Y' else if c = 'z' then 'Z' else c

/-- Model of `s.toUpperCase()`. -/
def jsToUpper (s : String) : String :=
  String.mk (s.data.map upperChar)

/-- Model of `s.startsWith(c)` for a single-character prefix. -/
def startsWithChar (s : String) (c : Char) : Bool :=
  match s.data with
  | [] => false
  | c0 :: _ => c0 = c

/-- The whitespace characters matched by JavaScript's `\s` class and removed
by `String.prototype.trim`. -/
def isJsWhitespace (c : Char) : Bool :=
  c = '\t' || c = '\n' || c.toNat = 0xb || c.toNat = 0xc || c = '\r' || c = ' ' ||
  c.toNat = 0xa0 || c.toNat = 0x1680 ||
  (decide (0x2000 ≤ c.toNat) && decide (c.toNat ≤ 0x200a)) ||
  c.toNat = 0x2028 || c.toNat = 0x2029 || c.toNat = 0x202f || c.toNat = 0x205f ||
  c.toNat = 0x3000 || c.toNat = 0xfeff

/-- Model of `String.prototype.trim`: strip JS whitespace from both ends. -/
def jsTrim (l : List Char) : List Char :=
  ((l.dropWhile isJsWhitespace).reverse.dropWhile isJsWhitespace).reverse

/-- The character class of `PUNCTUATION_REGEX` in `App.tsx`:
`[\s.,;:!?'"()\[\]\-—–׃׀]`. -/
def isPunctChar (c : Char) : Bool :=
  isJsWhitespace c ||
  [ '.', ',', ';', ':', '!', '?', '\'', '"', '(', ')', '[', ']', '-', '—', '–',
    '׃', '׀' ].contains c

/-- Model of `isPunctuation` in `App.tsx`:
`PUNCTUATION_REGEX.test(text)` with `PUNCTUATION_REGEX = ^[\s.,;:!?'"()\[\]\-—–׃׀]+$`,
i.e. the text is a non-empty run of characters from the class. -/
def isPunctuation (text : String) : Bool :=
  text.data ≠ [] && text.data.all isPunctChar

/-- The dash characters of the first `SKIP_MARKERS_REGEX` alternative
`[-–—]`. -/
def isDashChar (c : Char) : Bool :=
  c = '-' || c = '–' || c = '—'

/-- Decision of the first `SKIP_MARKERS_REGEX` alternative `^[-–—]+$`:
a non-empty run of dash characters. -/
def dashRunTest (l : List Char) : Bool :=
  l ≠ [] && l.all isDashChar

/-- A dot for the ellipsis alternative. -/
def isDotChar (c : Char) : Bool :=
  c = '.'

/-- The slice of `l` from position `i` (inclusive) to `j` (exclusive). -/
def seg (l : List Char) (i j : Nat) : List Char :=
  (l.take j).drop i

/-- Decision of the second `SKIP_MARKERS_REGEX` alternative
`^\.+\s*\.+\s*\.+$`: the text decomposes as dots, optional whitespace, dots,
optional whitespace, dots.  Decided by searching the (finitely many) split
points `0 ≤ i ≤ j ≤ k ≤ m ≤ n`. -/
def ellipsisTest (l : List Char) : Bool :=
  let n := l.length
  (List.range (n + 1)).any fun i =>
    (List.range (n + 1)).any fun j =>
      (List.range (n + 1)).any fun k =>
        (List.range (n + 1)).any fun m =>
          decide (1 ≤ i) && decide (i ≤ j) && decide (j < k) && decide (k ≤ m) &&
          decide (m < n) &&
          (seg l 0 i).all isDotChar && (seg l i j).all isJsWhitespace &&
          (seg l j k).all isDotChar && (seg l k m).all isJsWhitespace &&
          (seg l m n).all isDotChar

/-- Model of `SKIP_MARKERS_REGEX.test`:
`^[-–—]+$|^\.+\s*\.+\s*\.+$|^vvv$`. -/
def skipMarkersTest (l : List Char) : Bool :=
  dashRunTest l || ellipsisTest l || l = [ 'v', 'v', 'v' ]

/-- Model of `shouldSkipWord` in `App.tsx`:
`strongs && SKIP_MARKERS_REGEX.test(text.trim())` (used as a boolean). -/
def shouldSkipWord (text : String) (strongs : Option String) : Bool :=
  jsTruthy strongs && skipMarkersTest (jsTrim text.data)

/-- The characters removed by `cleanText`: the class `[\[\]{}]`. -/
def isCleanedChar (c : Char) : Bool :=
  c = '[' || c = ']' || c = '\x7b' || c = '\x7d'

/-- Recursive model of `text.replace(/[\[\]{}]/g, '')`: rebuild the string,
dropping every bracket or brace character. -/
def cleanChars : List Char → List Char
  | [] => []
  | c :: cs => if isCleanedChar c then cleanChars cs else c :: cleanChars cs

/-- Model of `cleanText` in `App.tsx`. -/
def cleanText (text : String) : String :=
  String.mk (cleanChars text.data)

/-! ### Alignment engine (`renderVerse` in `App.tsx`) -/

/-- A word of the display data: `[text, strongs_number]` (`BSBWord`). -/
abbrev Word := String × Option String

/-- The fields of a `BSBVerse` used by the alignment engine: verse number,
English word array `w`, and the optional `heb`/`grk` original-language
arrays. -/
structure BSBVerse where
  v : Nat
  w : List Word
  heb : Option (List Word) := none
  grk : Option (List Word) := none

/-- An aligned word pair (`WordPair` in `renderVerse`). -/
structure WordPair where
  original : String
  english : String
  strongs : String
deriving DecidableEq

/-- Model of `verse.heb || verse.grk || []` (arrays are truthy in JS even
when empty, so a present-but-empty `heb` hides `grk`). -/
def originalWordsOf (verse : BSBVerse) : List Word :=
  verse.heb.getD (verse.grk.getD [])

/-- One step of building `originalWordMap`: insert `(strongs, text)` only
when `strongs` is truthy and the key is not yet present. -/
def addOrigWord (m : List (String × String)) (w : Word) : List (String × String) :=
  match w.2 with
  | none => m
  | some s => if s ≠ "" && (m.lookup s).isNone then m ++ [(s, w.1)] else m

/-- Model of the `originalWordMap` construction in `renderVerse`: scan the
original array in order, recording only the first text for each truthy
Strong's number. -/
def buildOriginalWordMap (l : List Word) : List (String × String) :=
  l.foldl addOrigWord []

/-- Model of `originalWordMap.get(strongs) || ''`. -/
def origMapGet (m : List (String × String)) (s : String) : String :=
  (m.lookup s).getD ""

/-- The filter of the English-order branch:
`strongs && !isPunctuation(text) && !shouldSkipWord(text, strongs)`. -/
def englishKeep (p : Word) : Bool :=
  jsTruthy p.2 && !isPunctuation p.1 && !shouldSkipWord p.1 p.2

/-- Model of the English-word-order branch of `renderVerse`: filter the
English array, then map each surviving entry to a pair via the
first-occurrence map over the original array. -/
def alignEnglishOrder (w : List Word) (orig : List Word) : List WordPair :=
  let m := buildOriginalWordMap orig
  (w.filter englishKeep).map fun p =>
    { original := origMapGet m (p.2.getD ""),
      english := cleanText p.1,
      strongs := p.2.getD "" }

/-- The filter of the original-order branch:
`strongs && !isPunctuation(text)`. -/
def originalKeep (p : Word) : Bool :=
  jsTruthy p.2 && !isPunctuation p.1

/-- Model of the inner loop of the original-order branch: scan the English
array left to right (`i` is the index of the head of the remaining list) for
the first entry whose Strong's number equals `s` and whose index is not in
`used`; return its index and text. -/
def scanEnglish (s : String) (used : List Nat) : List Word → Nat → Option (Nat × String)
  | [], _ => none
  | (t, es) :: rest, i =>
    if es = some s && !used.contains i then some (i, t)
    else scanEnglish s used rest (i + 1)

/-- Model of the `.map` over the filtered original array in the
original-order branch, threading the `usedEnglishIndices` set. -/
def alignOriginalAux (w : List Word) : List Word → List Nat → List WordPair
  | [], _ => []
  | (ot, os) :: rest, used =>
    let s := os.getD ""
    match scanEnglish s used w 0 with
    | some (i, t) =>
      { original := ot, english := cleanText t, strongs := s } ::
        alignOriginalAux w rest (i :: used)
    | none =>
      { original := ot, english := "", strongs := s } ::
        alignOriginalAux w rest used

/-- Model of the original-language-word-order branch of `renderVerse`. -/
def alignOriginalOrder (orig : List Word) (w : List Word) : List WordPair :=
  alignOriginalAux w (orig.filter originalKeep) []

/-- Model of the `wordPairs` computation in `renderVerse`: the original-order
branch is taken only when the order flag is set and the original array is
non-empty. -/
def wordPairs (useHebrewWordOrder : Bool) (verse : BSBVerse) : List WordPair :=
  let ow := originalWordsOf verse
  if useHebrewWordOrder && decide (0 < ow.length) then alignOriginalOrder ow verse.w
  else alignEnglishOrder verse.w ow

/-! ### Book-code tables (`bsbDataApi.ts`) -/

/-- The `BOOK_CODES` table: book number to canonical 3-letter code. -/
def bookCodesList : List (Nat × String) :=
  [ (1, "GEN"), (2, "EXO"), (3, "LEV"), (4, "NUM"), (5, "DEU"), (6, "JOS"),
    (7, "JDG"), (8, "RUT"), (9, "1SA"), (10, "2SA"), (11, "1KI"), (12, "2KI"),
    (13, "1CH"), (14, "2CH"), (15, "EZR"), (16, "NEH"), (17, "EST"), (18, "JOB"),
    (19, "PSA"), (20, "PRO"), (21, "ECC"), (22, "SNG"), (23, "ISA"), (24, "JER"),
    (25, "LAM"), (26, "EZK"), (27, "DAN"), (28, "HOS"), (29, "JOL"), (30, "AMO"),
    (31, "OBA"), (32, "JON"), (33, "MIC"), (34, "NAM"), (35, "HAB"), (36, "ZEP"),
    (37, "HAG"), (38, "ZEC"), (39, "MAL"), (40, "MAT"), (41, "MRK"), (42, "LUK"),
    (43, "JHN"), (44, "ACT"), (45, "ROM"), (46, "1CO"), (47, "2CO"), (48, "GAL"),
    (49, "EPH"), (50, "PHP"), (51, "COL"), (52, "1TH"), (53, "2TH"), (54, "1TI"),
    (55, "2TI"), (56, "TIT"), (57, "PHM"), (58, "HEB"), (59, "JAS"), (60, "1PE"),
    (61, "2PE"), (62, "1JN"), (63, "2JN"), (64, "3JN"), (65, "JUD"), (66, "REV") ]

/-- The derived `BOOK_NUMBERS` reverse table: code to book number. -/
def bookNumbersList : List (String × Nat) :=
  bookCodesList.map fun p => (p.2, p.1)

/-- Model of `BOOK_NUMBERS[code]` (`undefined` becomes `none`). -/
def bookNumbersLookup (code : String) : Option Nat :=
  bookNumbersList.lookup code

/-- The `BOOK_ALIASES` table: accepted spelling to canonical code. -/
def bookAliasesList : List (String × String) :=
  [ ("GEN", "GEN"), ("EXO", "EXO"), ("LEV", "LEV"), ("NUM", "NUM"),
    ("DEU", "DEU"), ("JOS", "JOS"), ("JDG", "JDG"), ("RUT", "RUT"),
    ("1SA", "1SA"), ("2SA", "2SA"), ("1KI", "1KI"), ("2KI", "2KI"),
    ("1CH", "1CH"), ("2CH", "2CH"), ("EZR", "EZR"), ("NEH", "NEH"),
    ("EST", "EST"), ("JOB", "JOB"), ("PSA", "PSA"), ("PRO", "PRO"),
    ("ECC", "ECC"), ("SNG", "SNG"), ("SOL", "SNG"), ("ISA", "ISA"),
    ("JER", "JER"), ("LAM", "LAM"), ("EZK", "EZK"), ("EZE", "EZK"),
    ("DAN", "DAN"), ("HOS", "HOS"), ("JOL", "JOL"), ("JOE", "JOL"),
    ("AMO", "AMO"), ("OBA", "OBA"), ("OBD", "OBA"), ("JON", "JON"),
    ("MIC", "MIC"), ("NAM", "NAM"), ("NAH", "NAM"), ("HAB", "HAB"),
    ("ZEP", "ZEP"), ("HAG", "HAG"), ("ZEC", "ZEC"), ("MAL", "MAL"),
    ("MAT", "MAT"), ("MRK", "MRK"), ("MAR", "MRK"), ("LUK", "LUK"),
    ("JHN", "JHN"), ("JOH", "JHN"), ("ACT", "ACT"), ("ROM", "ROM"),
    ("1CO", "1CO"), ("2CO", "2CO"), ("GAL", "GAL"), ("EPH", "EPH"),
    ("PHP", "PHP"), ("PHI", "PHP"), ("COL", "COL"), ("1TH", "1TH"),
    ("2TH", "2TH"), ("1TI", "1TI"), ("2TI", "2TI"), ("TIT", "TIT"),
    ("PHM", "PHM"), ("HEB", "HEB"), ("JAS", "JAS"), ("JAM", "JAS"),
    ("1PE", "1PE"), ("2PE", "2PE"), ("1JN", "1JN"), ("1JO", "1JN"),
    ("2JN", "2JN"), ("2JO", "2JN"), ("3JN", "3JN"), ("3JO", "3JN"),
    ("JUD", "JUD"), ("JDE", "JUD"), ("REV", "REV") ]

/-- Model of `normalizeBookCode` in `bsbDataApi.ts`: empty input is falsy
and yields `null`; otherwise uppercase and consult `BOOK_ALIASES`
(`BOOK_ALIASES[upper] || null`; no alias value is the empty string, so the
`|| null` coincides with a plain failed lookup). -/
def normalizeBookCode (bookCode : String) : Option String :=
  if bookCode = "" then none
  else bookAliasesList.lookup (jsToUpper bookCode)

/-- Model of `getBookNumber` in `bsbDataApi.ts`:
`normalized ? BOOK_NUMBERS[normalized] || 0 : 0` (an empty normalized code
would also be falsy, hence the inner guard). -/
def getBookNumber (bookCode : String) : Nat :=
  match normalizeBookCode bookCode with
  | none => 0
  | some c => if c = "" then 0 else (bookNumbersLookup c).getD 0

/-- Model of `getBookNumber` in the legacy data module (`unnamed/part_001`):
`BOOK_NUMBERS[bookCode] || 1` — exact-match lookup, falling back to `1`
(no table value is `0`, so `|| 1` coincides with `getD 1`). -/
def getBookNumberOld (bookCode : String) : Nat :=
  (bookNumbersLookup bookCode).getD 1

/-! ### Concordance search, current implementation (`bsbDataApi.ts`) -/

/-- Model of `String.prototype.split('.')`: split at every dot, keeping
empty fields. -/
def splitDotAux : List Char → List Char → List (List Char)
  | [], acc => [acc.reverse]
  | c :: cs, acc =>
    if c = '.' then acc.reverse :: splitDotAux cs []
    else splitDotAux cs (c :: acc)

/-- Split a character list at dots. -/
def splitDot (l : List Char) : List (List Char) :=
  splitDotAux l []

/-- The leading decimal-digit run of a character list. -/
def leadingDigits (l : List Char) : List Char :=
  l.takeWhile fun c => decide ('0' ≤ c) && decide (c ≤ '9')

/-- Numeric value of a digit list. -/
def digitsToNat (l : List Char) : Nat :=
  l.foldl (fun acc c => acc * 10 + (c.toNat - 48)) 0

/-- Model of JavaScript `parseInt` on the decimal strings this program
parses: skip leading whitespace, read an optional sign, then a non-empty
run of decimal digits (trailing characters are ignored); `none` models
`NaN`. -/
def jsParseInt (l : List Char) : Option Int :=
  let t := l.dropWhile isJsWhitespace
  match t with
  | '-' :: rest =>
    let ds := leadingDigits rest
    if ds = [] then none else some (-(digitsToNat ds : Int))
  | '+' :: rest =>
    let ds := leadingDigits rest
    if ds = [] then none else some (digitsToNat ds : Int)
  | _ =>
    let ds := leadingDigits t
    if ds = [] then none else some (digitsToNat ds : Int)

/-- A `ConcordanceResult` of the current implementation.  `chapter` and
`verse` come from `parseInt`, so `none` models `NaN` (a missing or
non-numeric field). -/
structure ConcordanceResult where
  id : String
  bookCode : String
  bookNumber : Nat
  chapter : Option Int
  verse : Option Int
deriving DecidableEq

/-- Model of the per-reference conversion in `searchConcordance`:
`const [bookCode, chapter, verse] = ref.split('.')` followed by the
object literal (`BOOK_NUMBERS[bookCode] || 0`; no table value is `0`). -/
def parseRef (ref : String) : ConcordanceResult :=
  let parts := splitDot ref.data
  let bookCode := String.mk ((parts.get? 0).getD [])
  { id := ref,
    bookCode := bookCode,
    bookNumber := (bookNumbersLookup bookCode).getD 0,
    chapter := match parts.get? 1 with
      | some l => jsParseInt l
      | none => none,
    verse := match parts.get? 2 with
      | some l => jsParseInt l
      | none => none }

/-- Subtraction on `parseInt` results with `NaN` propagation. -/
def subNum : Option Int → Option Int → Option Int
  | some a, some b => some (a - b)
  | _, _ => none

/-- The comparator
`(a, b) => a.bookNumber - b.bookNumber || a.chapter - b.chapter || a.verse - b.verse`
as the number it returns.  `NaN` is falsy, so a `NaN` difference falls
through `||` to the next comparison; a final `NaN` comparator value is
treated as `0` by the sort (ES `SortCompare`). -/
def jsCompare (a b : ConcordanceResult) : Int :=
  let d1 : Int := (a.bookNumber : Int) - (b.bookNumber : Int)
  if d1 ≠ 0 then d1
  else
    match subNum a.chapter b.chapter with
    | some d2 => if d2 ≠ 0 then d2 else (subNum a.verse b.verse).getD 0
    | none => (subNum a.verse b.verse).getD 0

/-- `a` may precede `b` under the comparator. -/
def resultLE (a b : ConcordanceResult) : Bool :=
  decide (jsCompare a b ≤ 0)

/-- Stable insertion into a run already processed (keeps `x` after every
element it ties with). -/
def insertLe (le : α → α → Bool) (x : α) : List α → List α
  | [] => [x]
  | y :: ys => if le y x then y :: insertLe le x ys else x :: y :: ys

/-- Model of `Array.prototype.sort` with a comparator: a stable sort (ES2019
requires stability; for a consistent comparator the stable sorted
permutation is unique, so any stable sort is a faithful model). -/
def jsSort (le : α → α → Bool) (l : List α) : List α :=
  l.foldl (fun acc x => insertLe le x acc) []

/-- Model of `searchConcordance` in `bsbDataApi.ts`.  The loaded concordance
map (`loadConcordance`) is passed explicitly as an association list; the
function uppercases the query, looks it up, returns `[]` for an absent or
empty entry, and otherwise parses and sorts the stored references. -/
def searchConcordance (concordance : List (String × List String))
    (strongsNumber : String) : List ConcordanceResult :=
  let normalized := jsToUpper strongsNumber
  match concordance.lookup normalized with
  | none => []
  | some verseRefs =>
    if verseRefs = [] then []
    else jsSort resultLE (verseRefs.map parseRef)

/-! ### Concordance search, legacy implementation (`unnamed/part_001`) -/

/-- The fields of a legacy `BSBIndexEntry` used by the search: book code,
chapter, verse, text and the Strong's numbers of the verse. -/
structure BSBIndexEntryOld where
  id : String
  b : String
  c : Nat
  v : Nat
  t : String
  s : List String
  x : List String := []
deriving DecidableEq

/-- A legacy `ConcordanceResult`. -/
structure ConcordanceResultOld where
  bookCode : String
  bookNumber : Nat
  chapter : Nat
  verse : Nat
  text : String
deriving DecidableEq

/-- The legacy comparator (same shape as the current one, on exact
numbers). -/
def jsCompareOld (a b : ConcordanceResultOld) : Int :=
  let d1 : Int := (a.bookNumber : Int) - (b.bookNumber : Int)
  if d1 ≠ 0 then d1
  else
    let d2 : Int := (a.chapter : Int) - (b.chapter : Int)
    if d2 ≠ 0 then d2 else (a.verse : Int) - (b.verse : Int)

/-- `a` may precede `b` under the legacy comparator. -/
def resultLEOld (a b : ConcordanceResultOld) : Bool :=
  decide (jsCompareOld a b ≤ 0)

/-- Model of `searchConcordance` in the legacy module: iterate over the
index cache (passed explicitly, in insertion order), keep entries whose
testament matches the query's `H` prefix and whose Strong's list contains
the normalized query, then sort.  The `forEach`-and-push loop is written as
a `filterMap`. -/
def searchConcordanceOld (index : List BSBIndexEntryOld)
    (strongsNumber : String) : List ConcordanceResultOld :=
  let normalized := jsToUpper strongsNumber
  let isHebrew := startsWithChar normalized 'H'
  let results := index.filterMap fun entry =>
    let bookNum := (bookNumbersLookup entry.b).getD 0
    let isOT : Bool := decide (1 ≤ bookNum) && decide (bookNum ≤ 39)
    if isHebrew != isOT then none
    else if entry.s.contains normalized then
      some { bookCode := entry.b, bookNumber := bookNum, chapter := entry.c,
             verse := entry.v, text := entry.t }
    else none
  jsSort resultLEOld results

/-! ### Spec-side definitions

These follow the wording of the specification (not the code); the claim
theorems relate them to the embedded implementation above. -/

/-- Spec wording: the trimmed text is "a run of dash characters only". -/
def DashRunSpec (l : List Char) : Prop :=
  l ≠ [] ∧ ∀ c ∈ l, isDashChar c

/-- Spec wording: "a three-group ellipsis pattern with arbitrary internal
spacing" — three non-empty dot groups with (possibly empty) whitespace
between them. -/
def EllipsisSpec (l : List Char) : Prop :=
  ∃ a b c d e : List Char,
    l = a ++ b ++ c ++ d ++ e ∧ a ≠ [] ∧ c ≠ [] ∧ e ≠ [] ∧
    (∀ x ∈ a, isDotChar x) ∧ (∀ x ∈ b, isJsWhitespace x) ∧
    (∀ x ∈ c, isDotChar x) ∧ (∀ x ∈ d, isJsWhitespace x) ∧
    (∀ x ∈ e, isDotChar x)

/-- Spec wording for `shouldSkipWord`: a Strong's number is present (and
truthy) and the trimmed text is a dash run, an ellipsis pattern, or the
literal token `vvv`. -/
def SkipWordSpec (text : String) (strongs : Option String) : Prop :=
  (∃ s, strongs = some s ∧ s ≠ "") ∧
  (DashRunSpec (jsTrim text.data) ∨ EllipsisSpec (jsTrim text.data) ∨
    jsTrim text.data = [ 'v', 'v', 'v' ])

/-- English entry `i` of `w` carries text `t` and Strong's number `s`. -/
def matchAt (w : List Word) (s : String) (i : Nat) (t : String) : Prop :=
  w[i]? = some (t, some s)

/-- Spec wording: entry `i` is "the first English entry, scanning
left-to-right, whose Strong's number equals the current original entry's and
whose index no earlier triple has consumed" (`used` is the consumed set). -/
def firstUnconsumed (w : List Word) (s : String) (used : List Nat) (i : Nat)
    (t : String) : Prop :=
  matchAt w s i t ∧ i ∉ used ∧
    ∀ k, k < i → ∀ t', matchAt w s k t' → k ∈ used

/-- Spec wording: "no unconsumed match exists". -/
def noUnconsumed (w : List Word) (s : String) (used : List Nat) : Prop :=
  ∀ i t, matchAt w s i t → i ∈ used

/-- Declarative statement of the original-order algorithm: the pair list is
in one-to-one positional correspondence with the surviving original
entries; each pair copies the original text and Strong's number, and its
English field is the cleaned text of the first unconsumed matching English
entry (which then becomes consumed), or empty when no unconsumed match
exists. -/
def OrigAlignRel (w : List Word) : List Word → List WordPair → List Nat → Prop
  | [], [], _ => True
  | (ot, os) :: orest, pr :: prest, used =>
    pr.original = ot ∧ pr.strongs = os.getD "" ∧
    ((∃ i t, firstUnconsumed w (os.getD "") used i t ∧
        pr.english = cleanText t ∧ OrigAlignRel w orest prest (i :: used)) ∨
      (noUnconsumed w (os.getD "") used ∧ pr.english = "" ∧
        OrigAlignRel w orest prest used))
  | _, _, _ => False

/-- Spec wording for the English-order lookup: "the text of the first
occurrence of that Strong's number in the original-language array", empty
when the number does not occur. -/
def firstOccurrenceText (orig : List Word) (s : String) : String :=
  match orig.find? fun p => p.2 == some s with
  | some p => p.1
  | none => ""

/-- Non-decreasing order on `(bookNumber, chapter, verse)` (the claim's
lexicographic ordering; `chapter`/`verse` are read through their parsed
values). -/
def refLexLE (a b : ConcordanceResult) : Prop :=
  a.bookNumber < b.bookNumber ∨
    (a.bookNumber = b.bookNumber ∧
      (a.chapter.getD 0 < b.chapter.getD 0 ∨
        (a.chapter.getD 0 = b.chapter.getD 0 ∧ a.verse.getD 0 ≤ b.verse.getD 0)))

/-- A verse-reference string of the documented shape
`"BOOKCODE.CHAPTER.VERSE"`: exactly three dot-separated fields with numeric
chapter and verse. -/
def wellFormedRef (ref : String) : Bool :=
  match splitDot ref.data with
  | [_, p1, p2] => (jsParseInt p1).isSome && (jsParseInt p2).isSome
  | _ => false

/-! ### Concrete inputs used by counterexamples and witnesses -/

/-- A verse whose Strong's number repeats twice in both arrays. -/
def vDup : BSBVerse :=
  { v := 1,
    w := [("x", some "H1"), ("y", some "H1")],
    heb := some [("a", some "H1"), ("b", some "H1")] }

/-- A verse whose only English entry is a dash-run skip marker tagged with a
Strong's number. -/
def vSkip : BSBVerse :=
  { v := 1,
    w := [("---", some "H1")],
    heb := some [("b", some "H1")] }

/-- A verse with English Strong's tagging and no original array. -/
def vNoOrig : BSBVerse :=
  { v := 1, w := [("God", some "H430")] }

/-- A legacy index with one Old-Testament entry carrying `H1`. -/
def idxGen : List BSBIndexEntryOld :=
  [ { id := "GEN.1.2", b := "GEN", c := 1, v := 2, t := "t", s := ["H1"] } ]

/-- The legacy search result for `idxGen`. -/
def resGen : ConcordanceResultOld :=
  { bookCode := "GEN", bookNumber := 1, chapter := 1, verse := 2, text := "t" }

/-- A concordance map whose `H1` list is out of order. -/
def concUnsorted : List (String × List String) :=
  [("H1", ["EXO.2.3", "GEN.4.5", "GEN.2.7"])]

/-- A concordance map whose `G1` list contains a reference with an unknown
book code. -/
def concBadCode : List (String × List String) :=
  [("G1", ["XYZ.3.4", "GEN.1.1"])]

/-- A concordance map that files a New-Testament reference under a Hebrew
Strong's number. -/
def concCrossTestament : List (String × List String) :=
  [("H0001", ["MAT.1.1"])]

end BSB

/-! ### Concrete evaluations of the embedded classifier -/
example : BSB.shouldSkipWord "- - -" (some "H1234") = false := by decide
example : BSB.shouldSkipWord "---" (some "H1234") = true := by decide
example : BSB.shouldSkipWord ". . ." (some "H1") = true := by decide
example : BSB.shouldSkipWord "...." (some "H1") = true := by decide
example : BSB.shouldSkipWord ". . . ." (some "H1") = false := by decide
example : BSB.shouldSkipWord ". ." (some "H1") = false := by decide
example : BSB.shouldSkipWord "vvv" (some "H1") = true := by decide
example : BSB.shouldSkipWord " vvv " (some "H1") = true := by decide
example : BSB.shouldSkipWord "---" none = false := by decide
example : BSB.isPunctuation "—" = true := by decide
example : BSB.isPunctuation " . " = true := by decide
example : BSB.isPunctuation "word" = false := by decide
example : BSB.cleanText "a[b]{c}" = "abc" := by decide
example : BSB.jsToUpper "h1234" = "H1234" := by decide

-- concrete evaluations of the alignment engine
-- duplicate Strong's number in both arrays: consumption binds left-to-right
example :
    BSB.wordPairs true
      { v := 1,
        w := [("x", some "H1"), ("y", some "H1")],
        heb := some [("a", some "H1"), ("b", some "H1")] } =
      [⟨"a", "x", "H1"⟩, ⟨"b", "y", "H1"⟩] := by decide
-- original-order branch does not exclude skip-marker English entries
example :
    BSB.wordPairs true
      { v := 1,
        w := [("---", some "H1")],
        heb := some [("b", some "H1")] } =
      [⟨"b", "---", "H1"⟩] := by decide
-- English order: repeated Strong's number gets the first original text twice
example :
    BSB.wordPairs false
      { v := 1,
        w := [("In", none), ("beginning", some "H1"), ("again", some "H1")],
        heb := some [("r1", some "H1"), ("r2", some "H1")] } =
      [⟨"r1", "beginning", "H1"⟩, ⟨"r1", "again", "H1"⟩] := by decide
-- no original array: original fields empty, english order under both flags
example :
    BSB.wordPairs true { v := 1, w := [("God", some "H430")] } =
      [⟨"", "God", "H430"⟩] := by decide
-- skip marker excluded in english order
example :
    BSB.wordPairs false { v := 1, w := [("vvv", some "H1"), ("God", some "H430")] } =
      [⟨"", "God", "H430"⟩] := by decide

-- concrete evaluations of the data-access layer
example : BSB.getBookNumber "eze" = 26 := by decide
example : BSB.getBookNumber "XXX" = 0 := by decide
example : BSB.getBookNumber "" = 0 := by decide
example : BSB.getBookNumberOld "XXX" = 1 := by decide
example : BSB.getBookNumberOld "GEN" = 1 := by decide
example : BSB.getBookNumberOld "REV" = 66 := by decide
example : BSB.parseRef "GEN.1.12" =
    { id := "GEN.1.12", bookCode := "GEN", bookNumber := 1,
      chapter := some 1, verse := some 12 } := by decide
example : BSB.parseRef "XYZ.3.4" =
    { id := "XYZ.3.4", bookCode := "XYZ", bookNumber := 0,
      chapter := some 3, verse := some 4 } := by decide
example :
    BSB.searchConcordance [("H0001", ["MAT.1.1"])] "H0001" =
      [{ id := "MAT.1.1", bookCode := "MAT", bookNumber := 40,
         chapter := some 1, verse := some 1 }] := by decide
example :
    (BSB.searchConcordance [("H1", ["EXO.2.3", "GEN.4.5", "GEN.2.7"])] "h1").map
      (fun r => (r.bookNumber, r.chapter, r.verse)) =
      [(1, some 2, some 7), (1, some 4, some 5), (2, some 2, some 3)] := by decide
example : BSB.searchConcordance [("H1", ["GEN.1.1"])] "H2" = [] := by decide
example :
    (BSB.searchConcordanceOld
      [ { id := "a", b := "MAT", c := 1, v := 1, t := "t", s := ["H1"] },
        { id := "b", b := "GEN", c := 1, v := 1, t := "u", s := ["H1"] } ] "H1").map
      (fun r => r.bookNumber) = [1] := by decide

namespace BSB

/-! ### Helper lemmas -/

theorem cleanChars_eq_filter (l : List Char) :
    cleanChars l = l.filter fun c => !isCleanedChar c := by
  induction l with
  | nil => rfl
  | cons c cs ih =>
    by_cases h : isCleanedChar c = true <;>
      simp [cleanChars, List.filter_cons, h, ih]

theorem jsTruthy_iff (o : Option String) :
    jsTruthy o = true ↔ ∃ s, o = some s ∧ s ≠ "" := by
  cases o <;> simp [jsTruthy]

theorem englishKeep_spec {p : Word} (h : englishKeep p = true) :
    ∃ s, p.2 = some s ∧ s ≠ "" ∧ isPunctuation p.1 = false ∧
      shouldSkipWord p.1 p.2 = false := by
  have h' := h
  unfold englishKeep at h'
  simp only [Bool.and_eq_true, Bool.not_eq_true'] at h'
  obtain ⟨⟨ht, hp⟩, hs⟩ := h'
  obtain ⟨s, hs', hne⟩ := (jsTruthy_iff p.2).mp ht
  exact ⟨s, hs', hne, hp, hs⟩

theorem wordPairs_false_eq (verse : BSBVerse) :
    wordPairs false verse = alignEnglishOrder verse.w (originalWordsOf verse) := rfl

theorem wordPairs_true_eq (verse : BSBVerse) (h : originalWordsOf verse ≠ []) :
    wordPairs true verse = alignOriginalOrder (originalWordsOf verse) verse.w := by
  have hd : decide (0 < (originalWordsOf verse).length) = true := by
    simpa [List.length_pos] using h
  simp [wordPairs, hd]

theorem wordPairs_of_empty (verse : BSBVerse) (flag : Bool)
    (h : originalWordsOf verse = []) :
    wordPairs flag verse = alignEnglishOrder verse.w [] := by
  simp [wordPairs, h]

theorem origMapGet_nil (s : String) : origMapGet [] s = "" := rfl

/-- C9.  `cleanText` removes exactly the square-bracket and curly-brace
characters, leaving every other character unchanged (its output is the
filter of the input's characters through the complement of that class), and
it is idempotent. -/
theorem cleanText_filter_and_idempotent (s : String) :
    (cleanText s).data = s.data.filter (fun c => !isCleanedChar c) ∧
      cleanText (cleanText s) = cleanText s := by
  constructor
  · simpa [cleanText] using cleanChars_eq_filter s.data
  · show String.mk (cleanChars (cleanChars s.data)) = String.mk (cleanChars s.data)
    rw [cleanChars_eq_filter, cleanChars_eq_filter, List.filter_filter]
    simp

/-- C5.  For a verse whose original-language array is absent or empty (so
`verse.heb || verse.grk || []` is empty) while the English array carries
Strong's tagging, the requested order flag is irrelevant — the output
degrades to the English-order alignment — and every emitted pair has an
empty `original` field. -/
theorem missing_original_degrades (verse : BSBVerse) (flag : Bool)
    (h : originalWordsOf verse = [])
    (_htag : ∃ p ∈ verse.w, jsTruthy p.2 = true) :
    wordPairs flag verse = wordPairs false verse ∧
      ∀ p ∈ wordPairs flag verse, p.original = "" := by
  refine ⟨?_, ?_⟩
  · rw [wordPairs_of_empty verse flag h, wordPairs_false_eq, h]
  · intro p hp
    rw [wordPairs_of_empty verse flag h] at hp
    unfold alignEnglishOrder at hp
    obtain ⟨a, _, rfl⟩ := List.mem_map.mp hp
    rfl

/-- Witness for C5 at a verse with English Strong's tagging and no
original-language array. -/
theorem missing_original_degrades_witness :
    originalWordsOf vNoOrig = [] ∧ (∃ p ∈ vNoOrig.w, jsTruthy p.2 = true) ∧
      (wordPairs true vNoOrig = wordPairs false vNoOrig ∧
        ∀ p ∈ wordPairs true vNoOrig, p.original = "") :=
  ⟨by decide, by decide,
    missing_original_degrades vNoOrig true (by decide) (by decide)⟩

/-- C3 counterexample.  In original-language order the English scan applies
no `shouldSkipWord` filtering: for a verse whose only English entry is the
dash-run skip marker `---` tagged `H1`, the emitted pair's `english` field
is the cleaned text of that skip-marker entry. -/
theorem origOrder_emits_skip_marker_text :
    vSkip.w = [("---", some "H1")] ∧
      shouldSkipWord "---" (some "H1") = true ∧
      wordPairs true vSkip = [⟨"b", "---", "H1"⟩] := by decide

/-- C3 amended.  Only the English-order path excludes `shouldSkipWord`
entries: every pair it emits draws its `english` field from an English
entry that is not a skip marker.  (The original-order path performs no such
exclusion; see the counterexample.) -/
theorem englishOrder_excludes_skip_markers (verse : BSBVerse) :
    ∀ p ∈ wordPairs false verse,
      ∃ t os, (t, os) ∈ verse.w ∧ shouldSkipWord t os = false ∧
        os = some p.strongs ∧ p.english = cleanText t := by
  intro p hp
  rw [wordPairs_false_eq] at hp
  unfold alignEnglishOrder at hp
  obtain ⟨a, ha, rfl⟩ := List.mem_map.mp hp
  obtain ⟨haw, hkeep⟩ := List.mem_filter.mp ha
  obtain ⟨s, hs, _, _, hskip⟩ := englishKeep_spec hkeep
  refine ⟨a.1, a.2, ?_, hskip, ?_, rfl⟩
  · simpa using haw
  · simp [hs]

/-- Witness for the amended C3 at a concrete tagged verse. -/
theorem englishOrder_excludes_skip_markers_witness :
    ∃ t os, (t, os) ∈ vNoOrig.w ∧ shouldSkipWord t os = false ∧
      os = some (WordPair.strongs ⟨"", "God", "H430"⟩) ∧
      WordPair.english ⟨"", "God", "H430"⟩ = cleanText t :=
  englishOrder_excludes_skip_markers vNoOrig ⟨"", "God", "H430"⟩ (by decide)

theorem lookup_append {β : Type} (l₁ l₂ : List (String × β)) (a : String) :
    (l₁ ++ l₂).lookup a =
      match l₁.lookup a with
      | some v => some v
      | none => l₂.lookup a := by
  induction l₁ with
  | nil => simp [List.lookup]
  | cons p t ih =>
    obtain ⟨k, v⟩ := p
    by_cases h : (a == k) = true <;> simp [List.lookup_cons, h, ih]

theorem foldl_addOrigWord_lookup (s : String) (hs : s ≠ "") :
    ∀ (l : List Word) (m : List (String × String)),
      (l.foldl addOrigWord m).lookup s =
        match m.lookup s with
        | some t => some t
        | none => (l.find? fun p => p.2 == some s).map Prod.fst := by
  intro l
  induction l with
  | nil =>
    intro m
    cases h : m.lookup s <;> simp [h]
  | cons w t ih =>
    intro m
    rw [List.foldl_cons, ih]
    cases hw : w.2 with
    | none =>
      have hm : addOrigWord m w = m := by simp [addOrigWord, hw]
      have hf : ((w :: t).find? fun p => p.2 == some s) =
          t.find? fun p => p.2 == some s := by
        simp [List.find?_cons, hw]
      rw [hm, hf]
    | some s' =>
      by_cases hcond : (s' ≠ "" && (m.lookup s').isNone) = true
      · have hm : addOrigWord m w = m ++ [(s', w.1)] := by
          simp only [addOrigWord, hw]
          rw [if_pos hcond]
        rw [hm, lookup_append]
        by_cases hss : s = s'
        · subst hss
          have hnone : m.lookup s = none := by
            simp only [Bool.and_eq_true, Option.isNone_iff_eq_none] at hcond
            exact hcond.2
          have hf : ((w :: t).find? fun p => p.2 == some s) = some w := by
            simp [List.find?_cons, hw]
          rw [hnone, hf]
          simp [List.lookup]
        · have hbeq : (s == s') = false := by
            simpa using hss
          have hsingle : List.lookup s [(s', w.1)] = none := by
            simp [List.lookup_cons, hbeq, List.lookup]
          have hf : ((w :: t).find? fun p => p.2 == some s) =
              t.find? fun p => p.2 == some s := by
            simp [List.find?_cons, hw, Ne.symm hss]
          rw [hf]
          cases h : m.lookup s <;> simp [h, hsingle]
      · have hm : addOrigWord m w = m := by
          simp only [addOrigWord, hw]
          rw [if_neg hcond]
        rw [hm]
        by_cases hss : s = s'
        · subst hss
          have hbool : (decide (s ≠ "") && (List.lookup s m).isNone) = false :=
            Bool.eq_false_iff.mpr hcond
          have hd : decide (s ≠ "") = true := by simp [hs]
          rw [hd, Bool.true_and] at hbool
          obtain ⟨u, hu⟩ : ∃ u, m.lookup s = some u := by
            rcases h : m.lookup s with _ | u
            · rw [h] at hbool; simp at hbool
            · exact ⟨u, rfl⟩
          rw [hu]
        · have hf : ((w :: t).find? fun p => p.2 == some s) =
              t.find? fun p => p.2 == some s := by
            simp [List.find?_cons, hw, Ne.symm hss]
          rw [hf]

theorem origMapGet_eq_firstOccurrence (l : List Word) (s : String) (hs : s ≠ "") :
    origMapGet (buildOriginalWordMap l) s = firstOccurrenceText l s := by
  unfold origMapGet buildOriginalWordMap firstOccurrenceText
  rw [foldl_addOrigWord_lookup s hs]
  cases h : l.find? fun p => p.2 == some s <;> simp [h, List.lookup]

/-- C2.  English-order alignment emits exactly one pair per English entry
that has a truthy Strong's number, is not pure punctuation and is not a
skip marker, in English array order; each pair's `original` field is the
text of the first occurrence of its Strong's number in the original
array (empty when absent), so repeated Strong's numbers independently
receive the same recorded text, with no consumption tracking. -/
theorem englishOrder_alignment_correct (verse : BSBVerse) :
    wordPairs false verse =
      ((verse.w.filter englishKeep).map fun p =>
        { original := firstOccurrenceText (originalWordsOf verse) (p.2.getD ""),
          english := cleanText p.1,
          strongs := p.2.getD "" }) ∧
      ∀ p ∈ wordPairs false verse, ∀ q ∈ wordPairs false verse,
        p.strongs = q.strongs → p.original = q.original := by
  have hmain : wordPairs false verse =
      (verse.w.filter englishKeep).map fun p =>
        ({ original := firstOccurrenceText (originalWordsOf verse) (p.2.getD ""),
           english := cleanText p.1,
           strongs := p.2.getD "" } : WordPair) := by
    rw [wordPairs_false_eq]
    unfold alignEnglishOrder
    refine List.map_congr_left ?_
    intro a ha
    obtain ⟨_, hkeep⟩ := List.mem_filter.mp ha
    obtain ⟨s, hs, hne, _, _⟩ := englishKeep_spec hkeep
    have : a.2.getD "" = s := by simp [hs]
    rw [this, origMapGet_eq_firstOccurrence _ s hne]
  refine ⟨hmain, ?_⟩
  intro p hp q hq hpq
  rw [hmain] at hp hq
  obtain ⟨a, _, rfl⟩ := List.mem_map.mp hp
  obtain ⟨b, _, rfl⟩ := List.mem_map.mp hq
  have h2 : a.2.getD "" = b.2.getD "" := hpq
  show firstOccurrenceText (originalWordsOf verse) (a.2.getD "") =
    firstOccurrenceText (originalWordsOf verse) (b.2.getD "")
  rw [h2]

/-- Witness for C2 at a verse whose Strong's number `H1` repeats. -/
theorem englishOrder_alignment_correct_witness :
    wordPairs false vDup =
      ((vDup.w.filter englishKeep).map fun p =>
        { original := firstOccurrenceText (originalWordsOf vDup) (p.2.getD ""),
          english := cleanText p.1,
          strongs := p.2.getD "" }) ∧
      ∀ p ∈ wordPairs false vDup, ∀ q ∈ wordPairs false vDup,
        p.strongs = q.strongs → p.original = q.original :=
  englishOrder_alignment_correct vDup

theorem scanEnglish_some (s : String) (used : List Nat) :
    ∀ (l : List Word) (k i : Nat) (t : String),
      scanEnglish s used l k = some (i, t) →
      ∃ j, i = k + j ∧ l[j]? = some (t, some s) ∧ i ∉ used ∧
        ∀ j' < j, ∀ p : Word, l[j']? = some p → p.2 = some s →
          (k + j') ∈ used := by
  intro l
  induction l with
  | nil =>
    intro k i t h
    simp [scanEnglish] at h
  | cons w rest ih =>
    intro k i t h
    obtain ⟨wt, wes⟩ := w
    by_cases hc : (decide (wes = some s) && !used.contains k) = true
    · rw [scanEnglish, if_pos hc] at h
      obtain ⟨rfl, rfl⟩ : k = i ∧ wt = t := by
        simpa using h
      simp only [Bool.and_eq_true, decide_eq_true_eq, Bool.not_eq_true'] at hc
      obtain ⟨hes, hcont⟩ := hc
      refine ⟨0, by omega, by simp [hes], ?_, ?_⟩
      · intro hmem
        have hco : used.contains k = true := List.elem_iff.mpr hmem
        rw [hco] at hcont
        exact Bool.true_eq_false.mp hcont
      · intro j' hj' _ _ _
        omega
    · rw [scanEnglish, if_neg hc] at h
      obtain ⟨j, hij, hget, hni, hbefore⟩ := ih (k + 1) i t h
      refine ⟨j + 1, by omega, by simpa using hget, hni, ?_⟩
      intro j' hj' p hp hps
      match j', hj' with
      | 0, _ =>
        simp only [List.getElem?_cons_zero, Option.some.injEq] at hp
        subst hp
        simp only [Bool.and_eq_true, not_and, Bool.not_eq_true',
          decide_eq_true_eq] at hc
        have hcont : used.contains k = true := by
          cases hm : used.contains k
          · exact absurd hm (hc hps)
          · rfl
        have hmem : k ∈ used := List.elem_iff.mp hcont
        simpa using hmem
      | j'' + 1, h' =>
        have := hbefore j'' (by omega) p (by simpa using hp) hps
        have heq : k + (j'' + 1) = k + 1 + j'' := by omega
        rw [heq]
        exact this

theorem scanEnglish_none (s : String) (used : List Nat) :
    ∀ (l : List Word) (k : Nat),
      scanEnglish s used l k = none →
      ∀ (j : Nat) (p : Word), l[j]? = some p → p.2 = some s →
        (k + j) ∈ used := by
  intro l
  induction l with
  | nil =>
    intro k _ j p hp
    simp at hp
  | cons w rest ih =>
    intro k h j p hp hps
    obtain ⟨wt, wes⟩ := w
    by_cases hc : (decide (wes = some s) && !used.contains k) = true
    · rw [scanEnglish, if_pos hc] at h
      exact absurd h (by simp)
    · rw [scanEnglish, if_neg hc] at h
      match j with
      | 0 =>
        simp only [List.getElem?_cons_zero, Option.some.injEq] at hp
        subst hp
        simp only [Bool.and_eq_true, not_and, Bool.not_eq_true',
          decide_eq_true_eq] at hc
        have hcont : used.contains k = true := by
          cases hm : used.contains k
          · exact absurd hm (hc hps)
          · rfl
        have hmem : k ∈ used := List.elem_iff.mp hcont
        simpa using hmem
      | j'' + 1 =>
        have := ih (k + 1) h j'' p (by simpa using hp) hps
        have heq : k + (j'' + 1) = k + 1 + j'' := by omega
        rw [heq]
        exact this

theorem scanEnglish_firstUnconsumed {w : List Word} {s : String}
    {used : List Nat} {i : Nat} {t : String}
    (h : scanEnglish s used w 0 = some (i, t)) :
    firstUnconsumed w s used i t := by
  obtain ⟨j, hij, hget, hni, hbefore⟩ := scanEnglish_some s used w 0 i t h
  have hji : i = j := by omega
  subst hji
  refine ⟨hget, hni, ?_⟩
  intro k hk t' hm
  have := hbefore k hk (t', some s) hm rfl
  simpa using this

theorem scanEnglish_noUnconsumed {w : List Word} {s : String}
    {used : List Nat} (h : scanEnglish s used w 0 = none) :
    noUnconsumed w s used := by
  intro i t hm
  have := scanEnglish_none s used w 0 h i (t, some s) hm rfl
  simpa using this

theorem alignOriginalAux_rel (w : List Word) :
    ∀ (surv : List Word) (used : List Nat),
      OrigAlignRel w surv (alignOriginalAux w surv used) used := by
  intro surv
  induction surv with
  | nil =>
    intro used
    simp [alignOriginalAux, OrigAlignRel]
  | cons o rest ih =>
    intro used
    obtain ⟨ot, os⟩ := o
    cases h : scanEnglish (os.getD "") used w 0 with
    | some it =>
      obtain ⟨i, t⟩ := it
      rw [alignOriginalAux]
      simp only [h]
      exact ⟨rfl, rfl,
        Or.inl ⟨i, t, scanEnglish_firstUnconsumed h, rfl, ih (i :: used)⟩⟩
    | none =>
      rw [alignOriginalAux]
      simp only [h]
      exact ⟨rfl, rfl, Or.inr ⟨scanEnglish_noUnconsumed h, rfl, ih used⟩⟩

/-- C1.  For a verse with a non-empty original-language array, the
original-order alignment emits exactly one pair per original entry with a
truthy Strong's number and non-punctuation text, in the original array's
order; each pair's `english` field is the cleaned text of the first
not-yet-consumed English entry with the same Strong's number (which is then
consumed, so a repeated Strong's number binds to distinct English
occurrences left-to-right), or empty when no unconsumed match exists. -/
theorem origOrder_alignment_correct (verse : BSBVerse)
    (h : originalWordsOf verse ≠ []) :
    OrigAlignRel verse.w ((originalWordsOf verse).filter originalKeep)
      (wordPairs true verse) [] := by
  rw [wordPairs_true_eq verse h]
  exact alignOriginalAux_rel verse.w _ []

/-- Witness for C1 at a verse whose Strong's number `H1` occurs twice in
both arrays. -/
theorem origOrder_alignment_correct_witness :
    originalWordsOf vDup ≠ [] ∧
      OrigAlignRel vDup.w ((originalWordsOf vDup).filter originalKeep)
        (wordPairs true vDup) [] :=
  ⟨by decide, origOrder_alignment_correct vDup (by decide)⟩

theorem lookup_mem {β : Type} :
    ∀ {l : List (String × β)} {a : String} {v : β},
      l.lookup a = some v → (a, v) ∈ l := by
  intro l
  induction l with
  | nil => intro a v h; simp [List.lookup] at h
  | cons p t ih =>
    intro a v h
    obtain ⟨k, w⟩ := p
    rw [List.lookup_cons] at h
    by_cases hk : (a == k) = true
    · have hak : a = k := by simpa using hk
      simp only [hk] at h
      have hv : w = v := by simpa using h
      subst hak
      subst hv
      exact List.mem_cons_self _ _
    · simp only [Bool.not_eq_true] at hk
      rw [hk] at h
      exact List.mem_cons_of_mem _ (ih h)

/-- C8 counterexample.  The claim covers both cited `getBookNumber`
implementations, but the legacy one (`unnamed/part_001`) falls back to `1`
for an unresolvable book code: `"XXX"` resolves to no canonical code, yet
`getBookNumberOld` returns book 1. -/
theorem getBookNumberOld_unresolvable_is_one :
    normalizeBookCode "XXX" = none ∧ bookNumbersLookup "XXX" = none ∧
      getBookNumberOld "XXX" = 1 := by decide

/-- C8 amended.  The current `getBookNumber` (`bsbDataApi.ts`) returns the
sentinel `0` for every input that resolves to no canonical code, and a
book number of at least `1` for every input that does resolve, so its
callers can distinguish an unresolvable code from Genesis; the legacy
module's `getBookNumber` instead falls back to `1` (see the
counterexample). -/
theorem getBookNumber_unresolvable_is_zero (s : String) :
    (normalizeBookCode s = none → getBookNumber s = 0) ∧
      ∀ c, normalizeBookCode s = some c → 1 ≤ getBookNumber s := by
  constructor
  · intro h
    simp [getBookNumber, h]
  · intro c h
    have hmem : (jsToUpper s, c) ∈ bookAliasesList := by
      unfold normalizeBookCode at h
      by_cases hs : s = ""
      · rw [if_pos hs] at h; exact absurd h (by simp)
      · rw [if_neg hs] at h
        exact lookup_mem h
    have hfact : ∀ p ∈ bookAliasesList,
        p.2 ≠ "" ∧ 1 ≤ (bookNumbersLookup p.2).getD 0 := by decide
    obtain ⟨hne, hge⟩ := hfact _ hmem
    simp only at hne hge
    unfold getBookNumber
    rw [h]
    simpa [hne] using hge

/-- Witness for the amended C8: an unresolvable code gives `0`, a
lower-case aliased code resolves to a number of at least `1`. -/
theorem getBookNumber_unresolvable_is_zero_witness :
    getBookNumber "QQQ" = 0 ∧ 1 ≤ getBookNumber "eze" :=
  ⟨(getBookNumber_unresolvable_is_zero "QQQ").1 (by decide),
    (getBookNumber_unresolvable_is_zero "eze").2 "EZK" (by decide)⟩

theorem insertLe_perm {α : Type} (le : α → α → Bool) (x : α) :
    ∀ l : List α, List.Perm (insertLe le x l) (x :: l) := by
  intro l
  induction l with
  | nil => rfl
  | cons y ys ih =>
    unfold insertLe
    by_cases h : le y x = true
    · rw [if_pos h]
      exact (ih.cons y).trans (List.Perm.swap x y ys)
    · rw [if_neg h]

theorem jsSort_perm_aux {α : Type} (le : α → α → Bool) :
    ∀ (l acc : List α),
      List.Perm (List.foldl (fun a x => insertLe le x a) acc l) (l ++ acc) := by
  intro l
  induction l with
  | nil => intro acc; simp
  | cons h t ih =>
    intro acc
    rw [List.foldl_cons]
    refine (ih _).trans ?_
    refine (List.Perm.append_left t (insertLe_perm le h acc)).trans ?_
    exact List.perm_middle

theorem jsSort_perm {α : Type} (le : α → α → Bool) (l : List α) :
    List.Perm (jsSort le l) l := by
  have h := jsSort_perm_aux le l []
  simpa [jsSort] using h

theorem mem_jsSort {α : Type} {le : α → α → Bool} {l : List α} {a : α} :
    a ∈ jsSort le l ↔ a ∈ l :=
  (jsSort_perm le l).mem_iff

theorem pairwise_insertLe {α : Type} (le : α → α → Bool) (P : α → Prop)
    (ρ : α → α → Prop)
    (htrans : ∀ a b c, P a → P b → P c → ρ a b → ρ b c → ρ a c)
    (hle : ∀ a b, P a → P b → le a b = true → ρ a b)
    (hgt : ∀ a b, P a → P b → le b a = false → ρ a b)
    (x : α) (hx : P x) :
    ∀ l : List α, (∀ y ∈ l, P y) → List.Pairwise ρ l →
      List.Pairwise ρ (insertLe le x l) := by
  intro l
  induction l with
  | nil =>
    intro _ _
    simp [insertLe]
  | cons y ys ih =>
    intro hP hp
    rw [List.pairwise_cons] at hp
    obtain ⟨hy, hys⟩ := hp
    have hPy : P y := hP y (List.mem_cons_self _ _)
    have hPys : ∀ z ∈ ys, P z := fun z hz => hP z (List.mem_cons_of_mem _ hz)
    unfold insertLe
    by_cases h : le y x = true
    · rw [if_pos h]
      rw [List.pairwise_cons]
      refine ⟨?_, ih hPys hys⟩
      intro z hz
      rcases List.mem_cons.mp ((insertLe_perm le x ys).mem_iff.mp hz) with rfl | hz'
      · exact hle y z hPy hx h
      · exact hy z hz'
    · rw [if_neg h]
      have hxy : ρ x y := hgt x y hx hPy (Bool.not_eq_true _ ▸ h)
      rw [List.pairwise_cons]
      refine ⟨?_, List.pairwise_cons.mpr ⟨hy, hys⟩⟩
      intro z hz
      rcases List.mem_cons.mp hz with rfl | hz'
      · exact hxy
      · exact htrans x y z hx hPy (hPys z hz') hxy (hy z hz')

theorem pairwise_jsSort_aux {α : Type} (le : α → α → Bool) (P : α → Prop)
    (ρ : α → α → Prop)
    (htrans : ∀ a b c, P a → P b → P c → ρ a b → ρ b c → ρ a c)
    (hle : ∀ a b, P a → P b → le a b = true → ρ a b)
    (hgt : ∀ a b, P a → P b → le b a = false → ρ a b) :
    ∀ (l acc : List α), (∀ y ∈ l, P y) → (∀ y ∈ acc, P y) →
      List.Pairwise ρ acc →
      List.Pairwise ρ (List.foldl (fun a x => insertLe le x a) acc l) := by
  intro l
  induction l with
  | nil =>
    intro acc _ _ hp
    simpa using hp
  | cons h t ih =>
    intro acc hPl hPacc hp
    rw [List.foldl_cons]
    have hPh : P h := hPl h (List.mem_cons_self _ _)
    refine ih _ (fun y hy => hPl y (List.mem_cons_of_mem _ hy)) ?_ ?_
    · intro y hy
      rcases List.mem_cons.mp ((insertLe_perm le h acc).mem_iff.mp hy) with rfl | hy'
      · exact hPh
      · exact hPacc y hy'
    · exact pairwise_insertLe le P ρ htrans hle hgt h hPh acc hPacc hp

theorem pairwise_jsSort {α : Type} (le : α → α → Bool) (P : α → Prop)
    (ρ : α → α → Prop)
    (htrans : ∀ a b c, P a → P b → P c → ρ a b → ρ b c → ρ a c)
    (hle : ∀ a b, P a → P b → le a b = true → ρ a b)
    (hgt : ∀ a b, P a → P b → le b a = false → ρ a b)
    (l : List α) (hPl : ∀ y ∈ l, P y) :
    List.Pairwise ρ (jsSort le l) :=
  pairwise_jsSort_aux le P ρ htrans hle hgt l [] hPl (by simp) (by simp)

/-- Results whose `chapter` and `verse` both parsed (no `NaN`). -/
def numericResult (r : ConcordanceResult) : Prop :=
  ∃ c v : Int, r.chapter = some c ∧ r.verse = some v

theorem refLexLE_trans {a b c : ConcordanceResult}
    (h1 : refLexLE a b) (h2 : refLexLE b c) : refLexLE a c := by
  unfold refLexLE at *
  rcases h1 with h1 | ⟨e1, h1 | ⟨e1c, h1⟩⟩ <;>
    rcases h2 with h2 | ⟨e2, h2 | ⟨e2c, h2⟩⟩ <;>
      [skip; skip; skip; skip; skip; skip; skip; skip; skip] <;> omega

theorem resultLE_lex {a b : ConcordanceResult} (ha : numericResult a)
    (hb : numericResult b) (h : resultLE a b = true) : refLexLE a b := by
  obtain ⟨ca, va, hca, hva⟩ := ha
  obtain ⟨cb, vb, hcb, hvb⟩ := hb
  unfold resultLE at h
  rw [decide_eq_true_eq] at h
  unfold jsCompare at h
  rw [hca, hcb, hva, hvb] at h
  simp only [subNum, Option.getD_some] at h
  unfold refLexLE
  rw [hca, hcb, hva, hvb]
  simp only [Option.getD_some]
  split_ifs at h <;> omega

theorem resultLE_false_lex {a b : ConcordanceResult} (ha : numericResult a)
    (hb : numericResult b) (h : resultLE b a = false) : refLexLE a b := by
  obtain ⟨ca, va, hca, hva⟩ := ha
  obtain ⟨cb, vb, hcb, hvb⟩ := hb
  unfold resultLE at h
  rw [decide_eq_false_iff_not] at h
  push_neg at h
  unfold jsCompare at h
  rw [hca, hcb, hva, hvb] at h
  simp only [subNum, Option.getD_some] at h
  unfold refLexLE
  rw [hca, hcb, hva, hvb]
  simp only [Option.getD_some]
  split_ifs at h <;> omega

theorem resultLE_book (a b : ConcordanceResult) (h : resultLE a b = true) :
    a.bookNumber ≤ b.bookNumber := by
  unfold resultLE at h
  rw [decide_eq_true_eq] at h
  unfold jsCompare at h
  by_cases hd : ((a.bookNumber : Int) - (b.bookNumber : Int)) ≠ 0
  · rw [if_pos hd] at h; omega
  · push_neg at hd; omega

theorem resultLE_false_book (a b : ConcordanceResult)
    (h : resultLE b a = false) : a.bookNumber ≤ b.bookNumber := by
  unfold resultLE at h
  rw [decide_eq_false_iff_not] at h
  push_neg at h
  unfold jsCompare at h
  by_cases hd : ((b.bookNumber : Int) - (a.bookNumber : Int)) ≠ 0
  · rw [if_pos hd] at h; omega
  · push_neg at hd; omega

theorem parseRef_numeric (ref : String) (h : wellFormedRef ref = true) :
    numericResult (parseRef ref) := by
  unfold wellFormedRef at h
  split at h
  case _ p0 p1 p2 heq =>
    rw [Bool.and_eq_true, Option.isSome_iff_exists, Option.isSome_iff_exists] at h
    obtain ⟨⟨c, hc⟩, ⟨v, hv⟩⟩ := h
    refine ⟨c, v, ?_, ?_⟩ <;> simp [parseRef, heq, hc, hv]
  case _ =>
    exact absurd h (by simp)

theorem parseRef_bookNumber (ref : String) :
    (parseRef ref).bookNumber =
      (bookNumbersLookup ((parseRef ref).bookCode)).getD 0 := rfl

/-- C7.  `searchConcordance` applies an explicit sort: whatever the order
of the verse-reference list stored under the looked-up key, the results
are non-decreasing in `(bookNumber, chapter, verse)` lexicographic order;
an absent key yields the empty list rather than an error. -/
theorem searchConcordance_sorted (concordance : List (String × List String))
    (s : String) :
    (concordance.lookup (jsToUpper s) = none →
      searchConcordance concordance s = []) ∧
    ∀ refs, concordance.lookup (jsToUpper s) = some refs →
      (∀ ref ∈ refs, wellFormedRef ref = true) →
      List.Pairwise refLexLE (searchConcordance concordance s) := by
  constructor
  · intro h
    simp [searchConcordance, h]
  · intro refs h hwf
    by_cases hnil : refs = []
    · subst hnil
      simp [searchConcordance, h]
    · have hs : searchConcordance concordance s =
          jsSort resultLE (refs.map parseRef) := by
        simp [searchConcordance, h, hnil]
      rw [hs]
      refine pairwise_jsSort resultLE numericResult refLexLE ?_ ?_ ?_ _ ?_
      · intro a b c _ _ _ h1 h2
        exact refLexLE_trans h1 h2
      · intro a b ha hb hab
        exact resultLE_lex ha hb hab
      · intro a b ha hb hab
        exact resultLE_false_lex ha hb hab
      · intro y hy
        obtain ⟨ref, href, rfl⟩ := List.mem_map.mp hy
        exact parseRef_numeric ref (hwf ref href)

/-- Witness for C7: an out-of-order stored list comes back sorted, and an
absent key yields the empty list. -/
theorem searchConcordance_sorted_witness :
    List.Pairwise refLexLE (searchConcordance concUnsorted "h1") ∧
      searchConcordance ([] : List (String × List String)) "h9" = [] :=
  ⟨(searchConcordance_sorted concUnsorted "h1").2
      ["EXO.2.3", "GEN.4.5", "GEN.2.7"] (by decide) (by decide),
    (searchConcordance_sorted [] "h9").1 (by decide)⟩

/-- C10.  A verse reference stored under a Strong's key whose book code
resolves to no canonical code is not dropped by `searchConcordance`: it is
returned with `bookNumber = 0` (chapter and verse parsed from the string),
and the final sort places every result with `bookNumber = 0` before every
result with a canonical (positive) book number. -/
theorem searchConcordance_keeps_unknown_codes
    (concordance : List (String × List String)) (s : String)
    (refs : List String) (ref : String)
    (h1 : concordance.lookup (jsToUpper s) = some refs) (h2 : ref ∈ refs)
    (h3 : bookNumbersLookup ((parseRef ref).bookCode) = none) :
    parseRef ref ∈ searchConcordance concordance s ∧
      (parseRef ref).bookNumber = 0 ∧
      List.Pairwise (fun a b => 1 ≤ a.bookNumber → 1 ≤ b.bookNumber)
        (searchConcordance concordance s) := by
  have hnil : refs ≠ [] := List.ne_nil_of_mem h2
  have hs : searchConcordance concordance s =
      jsSort resultLE (refs.map parseRef) := by
    simp [searchConcordance, h1, hnil]
  refine ⟨?_, ?_, ?_⟩
  · rw [hs]
    exact mem_jsSort.mpr (List.mem_map_of_mem _ h2)
  · rw [parseRef_bookNumber, h3]
    rfl
  · rw [hs]
    have hpw := pairwise_jsSort resultLE (fun _ => True)
      (fun a b => a.bookNumber ≤ b.bookNumber)
      (fun a b c _ _ _ h1' h2' => le_trans h1' h2')
      (fun a b _ _ hab => resultLE_book a b hab)
      (fun a b _ _ hab => resultLE_false_book a b hab)
      (refs.map parseRef) (fun _ _ => trivial)
    exact hpw.imp fun hab h1b => le_trans h1b hab

/-- Witness for C10 at a concordance entry holding the unknown code
`XYZ`. -/
theorem searchConcordance_keeps_unknown_codes_witness :
    parseRef "XYZ.3.4" ∈ searchConcordance concBadCode "g1" ∧
      (parseRef "XYZ.3.4").bookNumber = 0 ∧
      List.Pairwise (fun a b => 1 ≤ a.bookNumber → 1 ≤ b.bookNumber)
        (searchConcordance concBadCode "g1") :=
  searchConcordance_keeps_unknown_codes concBadCode "g1"
    ["XYZ.3.4", "GEN.1.1"] "XYZ.3.4" (by decide) (by decide) (by decide)

theorem startsWithChar_G_not_H {s : String}
    (h : startsWithChar s 'G' = true) : startsWithChar s 'H' = false := by
  unfold startsWithChar at h ⊢
  cases hd : s.data with
  | nil => rfl
  | cons c cs =>
    rw [hd] at h
    have hc : c = 'G' := by simpa using h
    subst hc
    simp

/-- C6 counterexample.  The precomputed-map implementation performs no
testament filtering: a concordance map that files the New-Testament
reference `MAT.1.1` under the Hebrew number `H0001` is returned as-is, with
`bookNumber = 40 > 39`. -/
theorem searchConcordance_cross_testament_leak :
    ∃ r ∈ searchConcordance concCrossTestament "H0001", r.bookNumber > 39 := by
  decide

/-- C6 amended.  Testament consistency holds unconditionally only for the
legacy brute-force index scan: for an `H`-prefixed query it returns only
Old-Testament book numbers (1–39), and for a `G`-prefixed query never a
book number in 1–39, whatever the index contains.  The precomputed-map
implementation applies no filter — every result is exactly the parse of a
reference stored under the looked-up key, so its testament consistency is
only as good as the data's. -/
theorem testament_consistency_amended :
    (∀ (index : List BSBIndexEntryOld) (s : String),
      startsWithChar (jsToUpper s) 'H' = true →
      ∀ r ∈ searchConcordanceOld index s,
        1 ≤ r.bookNumber ∧ r.bookNumber ≤ 39) ∧
    (∀ (index : List BSBIndexEntryOld) (s : String),
      startsWithChar (jsToUpper s) 'G' = true →
      ∀ r ∈ searchConcordanceOld index s,
        ¬(1 ≤ r.bookNumber ∧ r.bookNumber ≤ 39)) ∧
    (∀ (concordance : List (String × List String)) (s : String),
      ∀ r ∈ searchConcordance concordance s,
        ∃ refs, concordance.lookup (jsToUpper s) = some refs ∧
          ∃ ref ∈ refs, r = parseRef ref) := by
  refine ⟨?_, ?_, ?_⟩
  · intro index s hH r hr
    simp only [searchConcordanceOld] at hr
    rw [hH] at hr
    obtain ⟨entry, _, hf⟩ := List.mem_filterMap.mp (mem_jsSort.mp hr)
    split at hf
    next => exact absurd hf (by simp)
    next hcond =>
      split at hf
      next =>
        obtain rfl := Option.some.inj hf
        have hot : (decide (1 ≤ (bookNumbersLookup entry.b).getD 0) &&
            decide ((bookNumbersLookup entry.b).getD 0 ≤ 39)) = true := by
          by_contra hbot
          have hb := Bool.eq_false_iff.mpr hbot
          rw [hb] at hcond
          exact hcond rfl
        simp only [Bool.and_eq_true, decide_eq_true_eq] at hot
        exact hot
      next => exact absurd hf (by simp)
  · intro index s hG r hr
    simp only [searchConcordanceOld] at hr
    rw [startsWithChar_G_not_H hG] at hr
    obtain ⟨entry, _, hf⟩ := List.mem_filterMap.mp (mem_jsSort.mp hr)
    split at hf
    next => exact absurd hf (by simp)
    next hcond =>
      split at hf
      next =>
        obtain rfl := Option.some.inj hf
        have hot : (decide (1 ≤ (bookNumbersLookup entry.b).getD 0) &&
            decide ((bookNumbersLookup entry.b).getD 0 ≤ 39)) = false := by
          by_contra hbot
          have hb : (decide (1 ≤ (bookNumbersLookup entry.b).getD 0) &&
              decide ((bookNumbersLookup entry.b).getD 0 ≤ 39)) = true := by
            cases hx : (decide (1 ≤ (bookNumbersLookup entry.b).getD 0) &&
                decide ((bookNumbersLookup entry.b).getD 0 ≤ 39))
            · exact absurd hx hbot
            · rfl
          rw [hb] at hcond
          exact hcond rfl
        intro hc
        obtain ⟨h1, h2⟩ := hc
        rw [decide_eq_true h1, decide_eq_true h2] at hot
        simp at hot
      next => exact absurd hf (by simp)
  · intro concordance s r hr
    simp only [searchConcordance] at hr
    split at hr
    next => exact absurd hr (by simp)
    next refs heq =>
      by_cases hnil : refs = []
      · rw [if_pos hnil] at hr
        exact absurd hr (by simp)
      · rw [if_neg hnil] at hr
        obtain ⟨ref, href, hre⟩ := List.mem_map.mp (mem_jsSort.mp hr)
        exact ⟨refs, heq, ref, href, hre.symm⟩

/-- Witness for the amended C6: the legacy scan keeps only the
Old-Testament entry for an `H` query, and the map-based result for
`H0001` is the parse of the stored reference. -/
theorem testament_consistency_amended_witness :
    (1 ≤ resGen.bookNumber ∧ resGen.bookNumber ≤ 39) ∧
      ∃ refs, concCrossTestament.lookup (jsToUpper "H0001") = some refs ∧
        ∃ ref ∈ refs,
          ({ id := "MAT.1.1", bookCode := "MAT", bookNumber := 40,
             chapter := some 1, verse := some 1 } : ConcordanceResult) =
            parseRef ref :=
  ⟨testament_consistency_amended.1 idxGen "h1" (by decide) resGen (by decide),
    testament_consistency_amended.2.2 concCrossTestament "H0001"
      { id := "MAT.1.1", bookCode := "MAT", bookNumber := 40,
        chapter := some 1, verse := some 1 } (by decide)⟩

theorem seg_zero (l : List Char) (i : Nat) : seg l 0 i = l.take i := by
  simp [seg]

theorem seg_full (l : List Char) : seg l 0 l.length = l := by
  simp [seg, List.take_length]

theorem seg_drop (l : List Char) (m : Nat) : seg l m l.length = l.drop m := by
  simp [seg, List.take_length]

theorem seg_append (l : List Char) {i j k : Nat} (hij : i ≤ j) (hjk : j ≤ k) :
    seg l i j ++ seg l j k = seg l i k := by
  unfold seg
  rw [List.drop_take, List.drop_take, List.drop_take]
  have hdj : List.drop j l = List.drop (j - i) (List.drop i l) := by
    rw [List.drop_drop]
    congr 1
    omega
  rw [hdj]
  rw [show k - i = (j - i) + (k - j) by omega]
  rw [List.take_add]

theorem seg_length (l : List Char) {i j : Nat} (hj : j ≤ l.length)
    (hij : i ≤ j) : (seg l i j).length = j - i := by
  unfold seg
  rw [List.length_drop, List.length_take]
  omega

theorem seg_middle (x y z : List Char) :
    seg (x ++ y ++ z) x.length (x.length + y.length) = y := by
  unfold seg
  rw [List.drop_take]
  rw [show x.length + y.length - x.length = y.length by omega]
  rw [List.append_assoc]
  rw [List.drop_left]
  exact List.take_left y z

theorem ellipsisTest_concat (a b c d e : List Char)
    (hane : a ≠ []) (hcne : c ≠ []) (hene : e ≠ [])
    (hda : ∀ x ∈ a, isDotChar x = true)
    (hwb : ∀ x ∈ b, isJsWhitespace x = true)
    (hdc : ∀ x ∈ c, isDotChar x = true)
    (hwd : ∀ x ∈ d, isJsWhitespace x = true)
    (hde : ∀ x ∈ e, isDotChar x = true) :
    ellipsisTest (a ++ b ++ c ++ d ++ e) = true := by
  have hal : 1 ≤ a.length := List.length_pos.mpr hane
  have hcl : 1 ≤ c.length := List.length_pos.mpr hcne
  have hel : 1 ≤ e.length := List.length_pos.mpr hene
  set L := a ++ b ++ c ++ d ++ e with hL
  have hLlen : L.length =
      a.length + b.length + c.length + d.length + e.length := by
    simp [hL, List.length_append]
    omega
  have h1 : seg L 0 a.length = a := by
    rw [seg_zero, hL]
    rw [List.append_assoc, List.append_assoc, List.append_assoc]
    exact List.take_left _ _
  have h2 : seg L a.length (a.length + b.length) = b := by
    have hsh : L = a ++ b ++ (c ++ (d ++ e)) := by
      rw [hL]; simp [List.append_assoc]
    rw [hsh]
    exact seg_middle a b _
  have h3 : seg L (a.length + b.length)
      (a.length + b.length + c.length) = c := by
    have hsh : L = (a ++ b) ++ c ++ (d ++ e) := by
      rw [hL]; simp [List.append_assoc]
    have hxy : (a ++ b).length = a.length + b.length := List.length_append a b
    rw [hsh, ← hxy]
    exact seg_middle (a ++ b) c _
  have h4 : seg L (a.length + b.length + c.length)
      (a.length + b.length + c.length + d.length) = d := by
    have hxy : (a ++ b ++ c).length = a.length + b.length + c.length := by
      simp [List.length_append]
      omega
    rw [show L = (a ++ b ++ c) ++ d ++ e from rfl, ← hxy]
    exact seg_middle (a ++ b ++ c) d e
  have h5 : seg L (a.length + b.length + c.length + d.length) L.length = e := by
    rw [seg_drop]
    have hxy : (a ++ b ++ c ++ d).length =
        a.length + b.length + c.length + d.length := by
      simp [List.length_append]
      omega
    rw [show L = (a ++ b ++ c ++ d) ++ e from rfl, ← hxy]
    exact List.drop_left _ _
  unfold ellipsisTest
  simp only [List.any_eq_true, List.mem_range, Bool.and_eq_true,
    decide_eq_true_eq, List.all_eq_true]
  refine ⟨a.length, by omega, a.length + b.length, by omega,
    a.length + b.length + c.length, by omega,
    a.length + b.length + c.length + d.length, by omega, ?_⟩
  exact ⟨⟨⟨⟨⟨⟨⟨⟨⟨by omega, by omega⟩, by omega⟩, by omega⟩, by omega⟩,
    by rw [h1]; exact hda⟩, by rw [h2]; exact hwb⟩, by rw [h3]; exact hdc⟩,
    by rw [h4]; exact hwd⟩, by rw [h5]; exact hde⟩

theorem ellipsisTest_iff (l : List Char) :
    ellipsisTest l = true ↔ EllipsisSpec l := by
  constructor
  · intro h
    unfold ellipsisTest at h
    simp only [List.any_eq_true, List.mem_range, Bool.and_eq_true,
      decide_eq_true_eq, List.all_eq_true] at h
    obtain ⟨i, hi, j, hj, k, hk, m, hm, hrest⟩ := h
    obtain ⟨⟨⟨⟨⟨⟨⟨⟨⟨h1i, hij⟩, hjk⟩, hkm⟩, hmn⟩, ha⟩, hb⟩, hc⟩, hd⟩, he⟩ :=
      hrest
    have hin : i ≤ l.length := by omega
    have hjn : j ≤ l.length := by omega
    have hkn : k ≤ l.length := by omega
    have hmn' : m ≤ l.length := by omega
    refine ⟨seg l 0 i, seg l i j, seg l j k, seg l k m, seg l m l.length,
      ?_, ?_, ?_, ?_, ha, hb, hc, hd, he⟩
    · rw [seg_append l (Nat.zero_le i) hij,
        seg_append l (Nat.zero_le j) (le_of_lt hjk),
        seg_append l (Nat.zero_le k) hkm,
        seg_append l (Nat.zero_le m) hmn',
        seg_full]
    · apply List.length_pos.mp
      rw [seg_length l hin (Nat.zero_le i)]
      omega
    · apply List.length_pos.mp
      rw [seg_length l hkn (le_of_lt hjk)]
      omega
    · apply List.length_pos.mp
      rw [seg_length l (le_refl l.length) hmn']
      omega
  · intro h
    obtain ⟨a, b, c, d, e, rfl, hane, hcne, hene, hda, hwb, hdc, hwd, hde⟩ := h
    exact ellipsisTest_concat a b c d e hane hcne hene hda hwb hdc hwd hde

theorem dashRunTest_iff (l : List Char) :
    dashRunTest l = true ↔ DashRunSpec l := by
  unfold dashRunTest DashRunSpec
  simp [List.all_eq_true]

/-- C4 counterexample.  The claim's own example is wrong on the code: the
dash-run alternative `^[-–—]+$` does not match internal spaces, so
`shouldSkipWord "- - -" "H1234"` is `false`, not `true`. -/
theorem shouldSkipWord_spaced_dashes_false :
    shouldSkipWord "- - -" (some "H1234") = false := by decide

/-- C4 amended.  `shouldSkipWord text strongs` holds iff the Strong's
number is present (truthy) and the trimmed text is a run of dash characters
only (with no internal spaces), a three-group ellipsis pattern with
arbitrary internal spacing, or the literal token `vvv`; consequently
`shouldSkipWord "---" "H1234"` is true while `shouldSkipWord "- - -"
"H1234"` and `shouldSkipWord "- - -" null` are false. -/
theorem shouldSkipWord_characterization :
    (∀ (text : String) (strongs : Option String),
      shouldSkipWord text strongs = true ↔ SkipWordSpec text strongs) ∧
      shouldSkipWord "---" (some "H1234") = true ∧
      shouldSkipWord "- - -" (some "H1234") = false ∧
      shouldSkipWord "- - -" none = false := by
  refine ⟨?_, by decide, by decide, by decide⟩
  intro text strongs
  unfold shouldSkipWord SkipWordSpec skipMarkersTest
  rw [Bool.and_eq_true, jsTruthy_iff]
  constructor
  · rintro ⟨hs, hrest⟩
    refine ⟨hs, ?_⟩
    rw [Bool.or_eq_true, Bool.or_eq_true] at hrest
    rcases hrest with (hd | he) | hv
    · exact Or.inl ((dashRunTest_iff _).mp hd)
    · exact Or.inr (Or.inl ((ellipsisTest_iff _).mp he))
    · exact Or.inr (Or.inr (by simpa using hv))
  · rintro ⟨hs, hrest⟩
    refine ⟨hs, ?_⟩
    rw [Bool.or_eq_true, Bool.or_eq_true]
    rcases hrest with hd | he | hv
    · exact Or.inl (Or.inl ((dashRunTest_iff _).mpr hd))
    · exact Or.inl (Or.inr ((ellipsisTest_iff _).mpr he))
    · exact Or.inr (by simpa using hv)

/-- Witness for the amended C4 at the filler token `vvv`. -/
theorem shouldSkipWord_characterization_witness :
    shouldSkipWord "vvv" (some "G1") = true ↔ SkipWordSpec "vvv" (some "G1") :=
  shouldSkipWord_characterization.1 "vvv" (some "G1")

end BSB
